import Mathlib

/-!
Verification development for a single-node in-memory key-value server
(RESP2 wire protocol, string and stream values, master/replica replication).

Each definition below is a shallow embedding of the corresponding Rust item;
file and symbol names from the source are given in the doc comments.
Machine integers (u64) are modelled as `Nat` with explicit `% 2^64` where the
source arithmetic can wrap.
-/

/-- The `u64::MAX`. -/
def u64Max : Nat := 2 ^ 64 - 1

/-- Source `src/value/stream.rs`: `StreamId(u64, u64)` — an ordered pair compared
lexicographically (Rust `derive(PartialOrd, Ord)` on a two-field tuple struct). -/
structure StreamId where
  ms : Nat
  seq : Nat
deriving DecidableEq, Repr

/-- Lexicographic strict order on `StreamId`, as derived in Rust. -/
def idLt (a b : StreamId) : Bool :=
  a.ms < b.ms || (a.ms == b.ms && a.seq < b.seq)

/-- Lexicographic order-or-equal on `StreamId`, as derived in Rust. -/
def idLe (a b : StreamId) : Bool :=
  idLt a b || a == b

/-- The `StreamId::MAX = (u64::MAX, u64::MAX)`. -/
def idMax : StreamId := ⟨u64Max, u64Max⟩

/-- The `StreamId::MIN = (0, 0)`. -/
def idMin : StreamId := ⟨0, 0⟩

/-- Source `src/value/stream.rs`: the `Stream` struct. `entries` is a `BTreeMap`
modelled as a list of key/value pairs kept sorted by `idLt`; `entries_added`
is the running append counter. -/
structure StreamVal where
  entries : List (StreamId × List String)
  last_id : StreamId
  first_id : StreamId
  max_deleted_entry_id : Option StreamId
  entries_added : Nat
deriving DecidableEq, Repr

/-- The `Stream::new()`. -/
def streamNew : StreamVal :=
  { entries := [], last_id := ⟨0, 0⟩, first_id := ⟨0, 0⟩
    max_deleted_entry_id := none, entries_added := 0 }

/-- The `BTreeMap::insert` on the sorted entry list: replaces an equal key,
otherwise inserts at the ordered position. -/
def btreeInsert (k : StreamId) (v : List String) :
    List (StreamId × List String) → List (StreamId × List String)
  | [] => [(k, v)]
  | (k', v') :: rest =>
    if idLt k k' then (k, v) :: (k', v') :: rest
    else if k == k' then (k, v) :: rest
    else (k', v') :: btreeInsert k v rest

/-- Source `src/value/stream.rs`: `Stream::map_key_allocation`. `wall` is the current
wall-clock milliseconds (`SystemTime::now()` in the source). The `seq + 1`
addition is u64 arithmetic, hence the `% 2^64`. -/
def mapKeyAllocation (wall : Nat) (s : StreamVal) (key : StreamId) : StreamId :=
  let ms := if key.ms == u64Max then wall else key.ms
  let seq :=
    if key.seq == u64Max then
      (if s.last_id.ms == ms then (s.last_id.seq + 1) % 2 ^ 64 else 0)
    else key.seq
  ⟨ms, seq⟩

/-- Errors observable at the command boundary (`src/error.rs`). -/
inductive RErr where
  | invalidType (expected : String)
  | unhandled (msg : String)
  | unknownCommand
  | smth
deriving DecidableEq, Repr

/-- Source `src/value/stream.rs`: `Stream::append`. Note the source rejects
`key <= last_id` BEFORE `map_key_allocation` runs and performs no check
afterwards. -/
def streamAppend (wall : Nat) (s : StreamVal) (key : StreamId)
    (value : List String) : Except RErr (StreamId × StreamVal) :=
  if key == ⟨0, 0⟩ then
    .error (.unhandled "ERR The ID specified in XADD must be greater than 0-0")
  else if idLe key s.last_id then
    .error (.unhandled
      "ERR The ID specified in XADD is equal or smaller than the target stream top item")
  else
    let key := mapKeyAllocation wall s key
    .ok (key,
      { entries := btreeInsert key value s.entries
        last_id := key
        first_id := if s.entries_added == 0 then key else s.first_id
        max_deleted_entry_id := s.max_deleted_entry_id
        entries_added := s.entries_added + 1 })

/-- A concrete stream holding the single entry `10-0`, obtained by one
explicit append into the empty stream. -/
def streamAt10 : StreamVal :=
  { entries := [(⟨10, 0⟩, ["a", "1"])], last_id := ⟨10, 0⟩, first_id := ⟨10, 0⟩
    max_deleted_entry_id := none, entries_added := 1 }

/-- Result of `streamAppend 0 streamNew ⟨1,1⟩`. -/
def streamOne : StreamVal :=
  { entries := [(⟨1, 1⟩, ["f", "v"])], last_id := ⟨1, 1⟩, first_id := ⟨1, 1⟩
    max_deleted_entry_id := none, entries_added := 1 }

/-! ## Storage (`src/storage/memory.rs`) -/

/-- Source `src/value/mod.rs`: `RedisValue`. -/
inductive RedisValue where
  | str (s : String)
  | stream (s : StreamVal)
deriving Repr

/-- Source `src/value/mod.rs`: `ValueType`, the result of `RedisValue::ty`. -/
inductive ValueType where
  | string
  | stream
deriving DecidableEq, Repr

/-- The `RedisValue::ty()`. -/
def valueTy : RedisValue → ValueType
  | .str _ => .string
  | .stream _ => .stream

/-- The `data: BTreeMap<String, (RedisValue, Option<SystemTime>)>` field of
`Memory`, modelled as an association list; instants are milliseconds as `Nat`. -/
abbrev MemoryData := List (String × RedisValue × Option Nat)

/-- The `BTreeMap::get`: first (only) binding of the key. -/
def memLookup (k : String) : MemoryData → Option (RedisValue × Option Nat)
  | [] => none
  | (k', v) :: rest => if k' = k then some v else memLookup k rest

/-- The `BTreeMap::remove` (as used by `Memory::delete`): drop the binding. -/
def memRemove (k : String) (d : MemoryData) : MemoryData :=
  d.filter (fun e => e.1 ≠ k)

/-- The `Memory::is_expired`: no expiration means never expired, otherwise
`SystemTime::now() > exp`. `now` is passed explicitly. -/
def isExpired (now : Nat) : Option Nat → Bool
  | none => false
  | some e => now > e

/-- Source `src/storage/memory.rs`: `Memory::get`. Returns the observed value and the
storage left behind (lazy eviction deletes an expired entry). -/
def memGet (now : Nat) (k : String) (d : MemoryData) :
    Option RedisValue × MemoryData :=
  match memLookup k d with
  | none => (none, d)
  | some (v, exp) =>
    if isExpired now exp then (none, memRemove k d) else (some v, d)

/-- Source `src/storage/memory.rs`: `Memory::get_mut` — identical observable
behaviour to `get` (expired entries are removed, otherwise the entry is
untouched), with the value returned by mutable reference. -/
def memGetMut (now : Nat) (k : String) (d : MemoryData) :
    Option RedisValue × MemoryData :=
  match memLookup k d with
  | none => (none, d)
  | some (v, exp) =>
    if isExpired now exp then (none, memRemove k d) else (some v, d)

/-- Source `src/storage/memory.rs`: `Memory::get_keys` — iterates `self.data.keys()`
with NO expiration check. -/
def memGetKeys (d : MemoryData) : List String := d.map (·.1)

/-- The `BTreeMap::entry`-based replace used by `get_or_insert` on the occupied
branch: overwrite the binding in place. -/
def memReplace (k : String) (v : RedisValue × Option Nat) : MemoryData → MemoryData
  | [] => []
  | (k', v') :: rest =>
    if k' = k then (k, v) :: rest else (k', v') :: memReplace k v rest

/-- Source `src/storage/memory.rs`: `Memory::get_or_insert`. Occupied and live:
return the stored value, storage unchanged. Occupied but expired: overwrite
with `(factory(), None)`. Vacant: insert `(factory(), None)`. Returns the
value now under the key together with the updated storage. -/
def memGetOrInsert (now : Nat) (k : String) (fresh : RedisValue)
    (d : MemoryData) : RedisValue × MemoryData :=
  match memLookup k d with
  | some (v, exp) =>
    if isExpired now exp then (fresh, memReplace k (fresh, none) d)
    else (v, d)
  | none => (fresh, d ++ [(k, (fresh, none))])

/-- A two-entry concrete storage: `"a"` expires at 5, `"b"` never. -/
def memTwo : MemoryData :=
  [("a", .str "x", some 5), ("b", .str "y", none)]

/-! ## KEYS (`Memory::get_keys`, `src/commands/mod.rs::keys`) -/

/-- Source `src/commands/mod.rs`: the `keys` handler — any pattern other than `"*"`
is rejected with `RedisError::Smth`; otherwise all keys from the engine. -/
def keysCommand (pattern : String) (d : MemoryData) : Except RErr (List String) :=
  if pattern ≠ "*" then .error .smth else .ok (memGetKeys d)

/-- Modelled from the spec: `keys() -> list<string>` returns "all non-expired
keys". Stated for comparison with `memGetKeys`, which the source implements
without any expiration check. -/
def specNonExpiredKeys (now : Nat) (d : MemoryData) : List String :=
  (d.filter (fun e => !isExpired now e.2.2)).map (·.1)

/-! ## XADD at the engine level (`src/engine/redis.rs::append`) -/

/-- Overwrite only the value under `k`, keeping its expiration (mutation
through the `&mut` returned by `get_or_insert`). -/
def memReplaceValue (k : String) (v : RedisValue) : MemoryData → MemoryData
  | [] => []
  | (k', v', e') :: rest =>
    if k' = k then (k, v, e') :: rest
    else (k', v', e') :: memReplaceValue k v rest

/-- Source `src/engine/redis.rs`: `RedisEngine::append`. `get_or_insert` the key with
a fresh empty stream, fail with `InvalidType("stream")` on a string value,
otherwise run `Stream::append` and write the mutated stream back. The
`get_or_insert` insertion persists even when the append then fails. -/
def engineAppend (now wall : Nat) (sk : String) (key : StreamId)
    (fv : List String) (d : MemoryData) : Except RErr StreamId × MemoryData :=
  let r := memGetOrInsert now sk (.stream streamNew) d
  match r.1 with
  | .str _ => (.error (.invalidType "stream"), r.2)
  | .stream s =>
    match streamAppend wall s key fv with
    | .error e => (.error e, r.2)
    | .ok (k', s') => (.ok k', memReplaceValue sk (.stream s') r.2)

/-! ## WAIT immediate reply (`src/replication/master.rs::collect_offsets`) -/

/-- Source `src/replication/master.rs`: the head of `collect_offsets` — clamp the
required count to the replica population, take the initial count with the
source's `o == target_offset` comparison, and reply immediately iff it meets
the clamp. `some c` models the immediate `notify.send(c)`/return; `none`
models falling into the ack-round loop. -/
def collectOffsetsImmediate (offsets : List Nat) (required target : Nat) :
    Option Nat :=
  let rc := min required offsets.length
  let cc := (offsets.filter (fun o => o == target)).length
  if rc ≤ cc then some cc else none

/-- Modelled from the spec: "Count replicas currently at offset ≥ target. If
already ≥ count, reply immediately." Stated for comparison with
`collectOffsetsImmediate`, which the source implements with `==`. -/
def specImmediateReply (offsets : List Nat) (required target : Nat) :
    Option Nat :=
  let rc := min required offsets.length
  let cc := (offsets.filter (fun o => target ≤ o)).length
  if rc ≤ cc then some cc else none

/-- Source `src/replication/master.rs`: the count taken inside `ack_round`
(`o >= target`), for contrast with the initial count. -/
def ackRoundCount (offsets : List Nat) (target : Nat) : Nat :=
  (offsets.filter (fun o => target ≤ o)).length

/-! ## Flag extraction (`src/request/flag.rs`) -/

/-- Rust `Iterator::position`: index of the first element satisfying `p`. -/
def listPosition (p : α → Bool) : List α → Option Nat
  | [] => none
  | a :: rest => if p a then some 0 else (listPosition p rest).map (· + 1)

/-- Source `src/request/flag.rs` (`flag!` macro): find the flag in `args` with the
source's exact comparison `it == $flag`, then return the immediately
following argument; any failure is `RedisError::Smth`, modelled as `none`. -/
def flagExtract (flag : String) (args : List String) : Option String :=
  match listPosition (fun it => it == flag) args with
  | some pos => args[pos + 1]?
  | none => none

/-- ASCII-case-insensitive character comparison (for the spec model only). -/
def chIEq (a b : Char) : Bool :=
  a == b
  || (65 ≤ a.toNat && a.toNat ≤ 90 && b.toNat == a.toNat + 32)
  || (65 ≤ b.toNat && b.toNat ≤ 90 && a.toNat == b.toNat + 32)

/-- ASCII-case-insensitive string comparison (for the spec model only). -/
def strIEq (a b : String) : Bool :=
  go a.data b.data
where
  go : List Char → List Char → Bool
    | [], [] => true
    | x :: xs, y :: ys => chIEq x y && go xs ys
    | _, _ => false

/-- Modelled from the spec: "Find `name` (case-insensitive) in args; return
the immediately following argument." Stated for comparison with
`flagExtract`, which the source implements case-sensitively. -/
def specFlagExtract (flag : String) (args : List String) : Option String :=
  match listPosition (fun it => strIEq it flag) args with
  | some pos => args[pos + 1]?
  | none => none

/-! ## RESP2 codec (`src/encoding/resp2/{ser,de}.rs`) -/

/-- The `i64::MAX` — `str::parse::<i64>` in `parse::number` fails above this. -/
def i64MaxNat : Nat := 2 ^ 63 - 1

/-- The CRLF terminator. -/
def crlf : List Char := ['\r', '\n']

/-- Decimal digits, most significant first, structurally recursive on a fuel
bound (any `fuel > n` suffices). -/
def digitCharsGo : Nat → Nat → List Char
  | 0, _ => []
  | fuel + 1, n =>
    if n < 10 then [Nat.digitChar n]
    else digitCharsGo fuel (n / 10) ++ [Nat.digitChar (n % 10)]

/-- Decimal digits of `n`, most significant first (Rust `{}` formatting of an
unsigned integer). -/
def digitChars (n : Nat) : List Char := digitCharsGo (n + 1) n

/-- Decimal rendering of an `i64` (sign handling of Rust `{}`). -/
def intChars (n : Int) : List Char :=
  if n < 0 then '-' :: digitChars n.natAbs else digitChars n.toNat

/-- A RESP2 frame as described by the spec: simple string, integer, bulk,
null-bulk, array. -/
inductive Frame where
  | simple (s : List Char)
  | int (n : Int)
  | bulk (b : List Char)
  | nullbulk
  | arr (elems : List Frame)

mutual

/-- Source `src/encoding/resp2/ser.rs`: the byte output of `Serializer` per frame.
`write_str` gives `+s\r\n`; `write_number` gives `:n\r\n`; `write_bytes`
gives `$LEN\r\n<bytes>\r\n` EXCEPT for the empty input, which is written as
`$0\r\n` with no body and no trailing CRLF; `write_nil` gives `$-1\r\n`;
`serialize_seq` writes the `*LEN\r\n` header followed by the elements. -/
def serFrame : Frame → List Char
  | .simple s => '+' :: (s ++ crlf)
  | .int n => ':' :: (intChars n ++ crlf)
  | .bulk b =>
    if b.length == 0 then '$' :: ('0' :: crlf)
    else '$' :: (digitChars b.length ++ crlf ++ b ++ crlf)
  | .nullbulk => '$' :: '-' :: ('1' :: crlf)
  | .arr l => '*' :: (digitChars l.length ++ crlf ++ serFrames l)

/-- Serialize a list of frames back to back (array elements). -/
def serFrames : List Frame → List Char
  | [] => []
  | f :: fs => serFrame f ++ serFrames fs

end

/-- The `parse::number`: `take_while(is_digit)` then `str::parse::<i64>` of the
digit run, which fails when the run is empty or its value exceeds
`i64::MAX`. Returns the value and the unconsumed input. -/
def digitsVal (ds : List Char) : Nat :=
  ds.foldl (fun a c => a * 10 + (c.toNat - 48)) 0

def parseNumber (input : List Char) : Option (Nat × List Char) :=
  let ds := input.takeWhile Char.isDigit
  let rest := input.dropWhile Char.isDigit
  if ds.isEmpty then none
  else if digitsVal ds ≤ i64MaxNat then some (digitsVal ds, rest) else none

/-- The `parse::separator`: `tag("\r\n")`. -/
def parseSep : List Char → Option (List Char)
  | '\r' :: '\n' :: rest => some rest
  | _ => none

/-- nom `take_until("\r\n")`: longest prefix before the first CRLF (the CRLF
itself is not consumed); fails if no CRLF occurs. -/
def takeUntilCRLF : List Char → Option (List Char × List Char)
  | [] => none
  | c :: rest =>
    if c = '\r' ∧ rest.head? = some '\n' then some ([], c :: rest)
    else (takeUntilCRLF rest).map fun p => (c :: p.1, p.2)

/-- The `parse::bytes`: `tag("$")`, `number`, separator, `take(len)`. (The
source's `len == -1` early return is unreachable because the digit-only
number parser never produces a negative value.) -/
def parseBytes (input : List Char) : Option (List Char × List Char) :=
  match input with
  | '$' :: rest =>
    match parseNumber rest with
    | some (len, rest1) =>
      match parseSep rest1 with
      | some rest2 =>
        if rest2.length < len then none
        else some (rest2.take len, rest2.drop len)
      | none => none
    | none => none
  | _ => none

/-- The `parse::simple_string`: `tag("+")` then `take_until("\r\n")` (the CRLF is
left in the input; the deserializer's `sep()` consumes it afterwards). -/
def parseSimpleStr (input : List Char) : Option (List Char × List Char) :=
  match input with
  | '+' :: rest => takeUntilCRLF rest
  | _ => none

/-- The `Deserializer::get_bytes`: `parse::bytes` then `sep()`. -/
def getBytesDe (input : List Char) : Option (List Char × List Char) :=
  (parseBytes input).bind fun p => (parseSep p.2).map fun r => (p.1, r)

/-- The `Deserializer::get_any_string`: `alt((simple_string, byte_string))` then
`sep()`. The decoded frame records which branch matched. -/
def getAnyStringDe (input : List Char) : Option (Frame × List Char) :=
  match parseSimpleStr input with
  | some (s, rest) => (parseSep rest).map fun r => (Frame.simple s, r)
  | none =>
    (parseBytes input).bind fun p => (parseSep p.2).map fun r => (Frame.bulk p.1, r)

/-- The serde target shape driving deserialization: `String`
(`deserialize_string` → `get_any_string`), byte buffers
(`deserialize_byte_buf` → `get_bytes`), `i64` (`deserialize_i64`, which the
source leaves as `todo!()` — it can never succeed), and `Vec<_>`
(`deserialize_seq`). -/
inductive Shape where
  | sstr
  | sbytes
  | sint
  | sseq (elem : Shape)
deriving DecidableEq, Repr

/-- The `Array` `SeqAccess` loop: decode `n` consecutive elements with the
given element decoder. -/
def deShapeListGo (decodeElem : List Char → Option (Frame × List Char)) :
    Nat → List Char → Option (List Frame × List Char)
  | 0, input => some ([], input)
  | n + 1, input =>
    (decodeElem input).bind fun p =>
      (deShapeListGo decodeElem n p.2).map fun q => (p.1 :: q.1, q.2)

/-- Source `src/encoding/resp2/de.rs`: the deserializer, indexed by target shape.
`fuel` is a structural-termination device only: it decreases at each `sseq`
descent, and `shapeFuel` below always provides strictly more than the
recursion depth, so the `0` branch is unreachable. `sseq` mirrors
`deserialize_seq`: peek `'*'` (else `ExpectedArray`), consume it,
`get_integer` (= `number` + `sep`), then that many elements. -/
def deShapeF : Nat → Shape → List Char → Option (Frame × List Char)
  | 0, _, _ => none
  | fuel + 1, sh, input =>
    match sh with
    | .sstr => getAnyStringDe input
    | .sbytes => (getBytesDe input).map fun p => (Frame.bulk p.1, p.2)
    | .sint => none
    | .sseq el =>
      match input with
      | '*' :: rest =>
        match parseNumber rest with
        | some (n, rest1) =>
          (parseSep rest1).bind fun rest2 =>
            (deShapeListGo (deShapeF fuel el) n rest2).map fun p =>
              (Frame.arr p.1, p.2)
        | none => none
      | _ => none

/-- One more than the `sseq`-nesting depth of a shape. -/
def shapeFuel : Shape → Nat
  | .sseq el => shapeFuel el + 1
  | _ => 1

/-- The deserializer at its adequate fuel. -/
def deShape (sh : Shape) (input : List Char) : Option (Frame × List Char) :=
  deShapeF (shapeFuel sh) sh input

/-- Target shape of an array ELEMENT: strings and bulks decode through the
`Vec<String>` element type (`get_any_string`); nested arrays recurse. -/
def elemShape : Frame → Shape
  | .arr [] => .sseq .sstr
  | .arr (x :: _) => .sseq (elemShape x)
  | _ => .sstr

/-- Top-level target shape for decoding a frame of each kind, as the code
picks its `T` in `from_bytes::<T>`: `String` for simple strings, `Bytes` for
bulk and null-bulk, `i64` for integers, `Vec<_>` for arrays. -/
def topShape : Frame → Shape
  | .simple _ => .sstr
  | .int _ => .sint
  | .bulk _ => .sbytes
  | .nullbulk => .sbytes
  | .arr [] => .sseq .sstr
  | .arr (x :: _) => .sseq (elemShape x)

/-- The `from_bytes`: run the deserializer and report the value together with
`input.len() - deserializer.left()`, the number of consumed bytes. -/
def fromBytesAt (sh : Shape) (input : List Char) : Option (Frame × Nat) :=
  (deShape sh input).map fun p => (p.1, input.length - p.2.length)

/-! ## Master broadcast and write propagation
(`src/network/mod.rs::broadcast`, `src/replication/master.rs`) -/

/-- The replica connection table: peer name paired with whether writes to its
socket currently succeed. -/
abbrev ConnTable := List (String × Bool)

/-- Source `src/network/mod.rs`: `RedisNetwork::broadcast`. The table is drained and
every connection — failed or not — is re-inserted; the first send error is
collected into the local `error` variable, which is then dropped without
ever being returned; the function unconditionally returns
`Ok(sent_bytes)` where `sent_bytes` is the length of the encoded frame.
The result pairs the retained table with that return value; the discarded
local is reproduced here for fidelity. -/
def netBroadcast (conns : ConnTable) (data : List Char) :
    ConnTable × Except RErr Nat :=
  let _error : Option RErr :=
    (conns.find? (fun c => !c.2)).map (fun _ => .unhandled "Error during IO")
  (conns, .ok data.length)

/-- The encoded `["SET", key, value]` frame broadcast on a write event
(array of bulk strings, `Vec<Bytes>` through the serializer). -/
def setFrameBytes (k v : List Char) : List Char :=
  serFrame (.arr [.bulk "SET".data, .bulk k, .bulk v])

/-- Source `src/replication/master.rs` (`replication_loop`, `Write` arm): broadcast
the SET frame; the `?` on the broadcast result would abort the loop on an
error (`none`), and on `Ok(size)` the master offset advances by `size`. -/
def masterWriteStep (conns : ConnTable) (offset : Nat) (k v : List Char) :
    Option (ConnTable × Nat) :=
  match netBroadcast conns (setFrameBytes k v) with
  | (conns', .ok size) => some (conns', offset + size)
  | (_, .error _) => none

/-- Modelled from the spec: "broadcasts to it return the error, which is
folded into the aggregate broadcast result" — i.e. a broadcast with any
failed peer would return that error. Stated for comparison with
`netBroadcast`, which never returns it. -/
def specBroadcastResult (conns : ConnTable) (data : List Char) : Except RErr Nat :=
  if conns.all (·.2) then .ok data.length
  else .error (.unhandled "Error during IO")

/-! ## XREAD BLOCK (`src/commands/stream.rs::xread`) -/

/-- One per-stream scan result: key and its entries. -/
abbrev ScanResult := List (String × List (StreamId × List String))

/-- The handler reply: `Resp2(None)` (the null array, `$-1\r\n`) or
`Resp2(Some(output))` (an array, `*N\r\n…` — empty output gives `*0\r\n`). -/
inductive XReadReply where
  | nullArray
  | results (l : ScanResult)
deriving DecidableEq

/-- Outcome of awaiting `engine.wait().for_keys(keys)` under the timeout. -/
inductive WaitOutcome where
  | timedOut
  | woken
deriving DecidableEq

/-- Source `src/commands/stream.rs` (`xread`): the effective BLOCK bound passed to
`tokio::time::timeout` — `0` is replaced by `u64::MAX` milliseconds. -/
def xreadEffectiveTimeout (t : Nat) : Nat := if t == 0 then u64Max else t

/-- Source `src/commands/stream.rs` (`xread`), final dispatch: with BLOCK set and an
empty first scan, a timeout returns `Resp2(None)`; a wake-up re-scans once
and returns `Resp2(Some(output))` — the empty array when the re-scan is
still empty. Without BLOCK (or with a non-empty first scan) the aggregated
first scan is returned. -/
def xreadBlockReply (block : Option Nat) (firstScan : ScanResult)
    (wake : WaitOutcome) (reScan : ScanResult) : XReadReply :=
  match block with
  | some _ =>
    if firstScan.isEmpty then
      match wake with
      | .timedOut => .nullArray
      | .woken => .results (firstScan ++ reScan)
    else .results firstScan
  | none => .results firstScan

/-- The wire head of each reply kind: `$-1\r\n` for the null array versus the
`*N\r\n` array header. -/
def xreadReplyHead : XReadReply → List Char
  | .nullArray => serFrame .nullbulk
  | .results l => '*' :: (digitChars l.length ++ crlf)

/-! ## Replica apply loop (`src/replication/replica.rs::start`) -/

/-- The frames a master's replication loop sends to an attached replica
after the handshake: `["SET", k, v]` write propagation, `["REPLCONF",
"GETACK", "*"]` ack probes, and `["PING"]` keepalives (routed identically). -/
inductive MasterFrame where
  | setCmd (k v : List Char)
  | getack
  | ping

/-- A response written back over the replication socket: `Response::Empty`
writes nothing; `Response::Raw` writes its bytes. -/
inductive RespOut where
  | empty
  | raw (bytes : List Char)

/-- An error response is `-{message}\r\n` (`RedisError::into_response`); its
first byte is `'-'`. -/
def isErrorFrame : RespOut → Bool
  | .empty => false
  | .raw bytes => bytes.head? == some '-'

/-- Source `src/replication/replica.rs` (`start` loop body, one frame): route the
frame through the replica router (`set`, `replconf`, `ping`), send the
response, then advance the local offset by the consumed byte count.
The `set` handler discards the engine result (`let _ = storage.set(…)`) —
`applyFails` records whether that apply failed — and returns `()`
(`Response::Empty`); `replconf GETACK` replies `["REPLCONF", "ACK",
<offset>]` reading the offset BEFORE the increment; `ping` returns `()`. -/
def replicaApplyStep (applyFails : Bool) (offset : Nat) (frame : MasterFrame)
    (frameSize : Nat) : RespOut × Nat :=
  match frame with
  | .setCmd _ _ =>
    let _ignored := applyFails
    (.empty, offset + frameSize)
  | .getack =>
    (.raw (serFrame (.arr [.bulk "REPLCONF".data, .bulk "ACK".data,
        .bulk (digitChars offset)])), offset + frameSize)
  | .ping => (.empty, offset + frameSize)

/-- A decodable bulk frame: non-empty (the serializer's `$0\r\n` special case
drops the CRLF the parser demands) with an `i64`-parseable length. -/
def goodBulk : Frame → Bool
  | .bulk b => !b.isEmpty && decide (b.length ≤ i64MaxNat)
  | _ => false

/-- A decodable depth-1 array: all elements decodable bulks. -/
def goodArr1 : Frame → Bool
  | .arr l => l.all goodBulk && decide (l.length ≤ i64MaxNat)
  | _ => false

/-- The frames for which the claimed round-trip actually holds: CR-free
simple strings, non-empty bulks, arrays of such bulks, and arrays of such
arrays (depth 2). Integers, the null-bulk and the empty bulk are excluded:
no decode path accepts their encodings. -/
def goodFrame : Frame → Bool
  | .simple s => !s.contains '\r'
  | .bulk b => !b.isEmpty && decide (b.length ≤ i64MaxNat)
  | .arr l => (l.all goodBulk || l.all goodArr1) && decide (l.length ≤ i64MaxNat)
  | _ => false

/-! ## Theorems -/

example : streamAppend 0 streamNew ⟨10, 0⟩ ["a", "1"] = .ok (⟨10, 0⟩, streamAt10) := rfl

theorem idLe_false_lt {a b : StreamId} (h : idLe a b = false) : idLt b a = true := by
  rcases a with ⟨ams, aseq⟩
  rcases b with ⟨bms, bseq⟩
  simp only [idLe, idLt, Bool.or_eq_false_iff, Bool.or_eq_true, Bool.and_eq_true,
    Bool.and_eq_false_iff, beq_iff_eq, beq_eq_false_iff_ne, ne_eq, decide_eq_true_eq,
    decide_eq_false_iff_not, StreamId.mk.injEq, not_and] at h ⊢
  omega

/-- C1 counterexample. With `last_id = 10-0` and wall clock at 5 ms, the
wall-clock append `XADD s *` passes the pre-allocation check (the requested id
is `(u64::MAX, u64::MAX)`), is then allocated id `5-0`, and is stored even
though `5-0` does not exceed `last_id = 10-0`: the source checks
`key <= last_id` before `map_key_allocation`, never after, so the claim's
"after allocation the resulting id still strictly exceeds last_id or the
append fails" is false, and the stored ids are no longer strictly increasing
in append order. -/
theorem xadd_post_allocation_check_cex :
    streamAppend 5 streamAt10 ⟨u64Max, u64Max⟩ ["f", "v"]
      = .ok (⟨5, 0⟩,
        { entries := [(⟨5, 0⟩, ["f", "v"]), (⟨10, 0⟩, ["a", "1"])]
          last_id := ⟨5, 0⟩, first_id := ⟨10, 0⟩
          max_deleted_entry_id := none, entries_added := 2 })
    ∧ idLt streamAt10.last_id ⟨5, 0⟩ = false := ⟨rfl, rfl⟩

/-- C1 (amended): a successful `Stream::append` implies the REQUESTED id
already passed the pre-allocation check (`key ≠ 0-0` and `¬(key ≤ last_id)`),
the stored id is exactly the allocated one and becomes the new `last_id`, and
whenever the request does not ask for wall-clock allocation
(`req_ms ≠ u64::MAX`) the allocated id strictly exceeds the old `last_id`. -/
theorem xadd_allocation_rule (wall : Nat) (s : StreamVal) (key : StreamId)
    (v : List String) (k' : StreamId) (s' : StreamVal)
    (h : streamAppend wall s key v = .ok (k', s')) :
    key ≠ ⟨0, 0⟩ ∧ idLe key s.last_id = false
    ∧ k' = mapKeyAllocation wall s key ∧ s'.last_id = k'
    ∧ (key.ms ≠ u64Max → idLt s.last_id k' = true) := by
  unfold streamAppend at h
  split at h
  · exact absurd h (by simp)
  · split at h
    · exact absurd h (by simp)
    · rename_i h00 hle
      simp only [Except.ok.injEq, Prod.mk.injEq] at h
      obtain ⟨hk, hs⟩ := h
      rw [Bool.not_eq_true] at hle
      refine ⟨by simpa using h00, hle, hk.symm, by rw [← hs]; exact hk, ?_⟩
      intro hms
      subst hk
      have hlt := idLe_false_lt hle
      rcases key with ⟨kms, kseq⟩
      rcases s with ⟨e, ⟨lms, lseq⟩, fid, mdel, na⟩
      simp only [idLt, Bool.or_eq_true, Bool.and_eq_true, beq_iff_eq,
        decide_eq_true_eq] at hlt
      simp only [mapKeyAllocation, idLt, beq_iff_eq, Bool.or_eq_true,
        Bool.and_eq_true, decide_eq_true_eq]
      simp only at hms
      rw [if_neg hms]
      by_cases hseq : kseq = u64Max
      · rw [if_pos hseq]
        by_cases hlm : lms = kms
        · rw [if_pos hlm]
          have hb : lseq < u64Max := by
            rcases hlt with h | ⟨h1, h2⟩
            · exact absurd h (by omega)
            · omega
          right
          refine ⟨hlm, ?_⟩
          have : lseq + 1 < 2 ^ 64 := by
            simp only [u64Max] at hb; omega
          rw [Nat.mod_eq_of_lt this]
          omega
        · rw [if_neg hlm]
          rcases hlt with h | ⟨h1, h2⟩
          · exact Or.inl h
          · exact absurd h1 hlm
      · rw [if_neg hseq]
        exact hlt.imp id id

/-- Witness instantiating `xadd_allocation_rule` at the concrete append of
`1-1` into the empty stream. -/
theorem xadd_allocation_rule_witness :
    (⟨1, 1⟩ : StreamId) ≠ ⟨0, 0⟩ ∧ idLe ⟨1, 1⟩ streamNew.last_id = false
    ∧ (⟨1, 1⟩ : StreamId) = mapKeyAllocation 0 streamNew ⟨1, 1⟩
    ∧ streamOne.last_id = ⟨1, 1⟩
    ∧ ((⟨1, 1⟩ : StreamId).ms ≠ u64Max → idLt streamNew.last_id ⟨1, 1⟩ = true) :=
  xadd_allocation_rule 0 streamNew ⟨1, 1⟩ ["f", "v"] ⟨1, 1⟩ streamOne rfl

theorem memLookup_remove_self (k : String) (d : MemoryData) :
    memLookup k (memRemove k d) = none := by
  induction d with
  | nil => rfl
  | cons hd tl ih =>
    rcases hd with ⟨k'', v⟩
    simp only [memRemove, List.filter_cons, ne_eq, decide_not] at ih ⊢
    by_cases h : k'' = k
    · subst h
      simpa using ih
    · simp [h, memLookup, ih]

theorem memLookup_remove_other {k k' : String} (h : k' ≠ k) (d : MemoryData) :
    memLookup k' (memRemove k d) = memLookup k' d := by
  induction d with
  | nil => rfl
  | cons hd tl ih =>
    rcases hd with ⟨k'', v⟩
    simp only [memRemove, List.filter_cons, ne_eq, decide_not] at ih ⊢
    by_cases hk : k'' = k
    · subst hk
      rw [memLookup, if_neg (fun he : k'' = k' => h (he ▸ rfl))]
      simpa using ih
    · by_cases he : k'' = k'
      · subst he
        simp [memLookup, hk]
      · simp [memLookup, hk, he, ih]

/-- C7: lazy expiration in `Memory::get`/`get_mut`. If key `k` is stored with
absolute expiration `ex` then a read at `now > ex` reports not-found and
deletes exactly that entry (all other keys unchanged), while a read at
`now ≤ ex` returns the stored value and leaves storage untouched; `get_mut`
behaves identically. -/
theorem storage_lazy_expiration (now ex : Nat) (k : String) (d : MemoryData)
    (v : RedisValue) (hl : memLookup k d = some (v, some ex)) :
    (now > ex →
        memGet now k d = (none, memRemove k d)
        ∧ memLookup k (memGet now k d).2 = none
        ∧ ∀ k', k' ≠ k → memLookup k' (memGet now k d).2 = memLookup k' d)
    ∧ (now ≤ ex → memGet now k d = (some v, d))
    ∧ memGetMut now k d = memGet now k d := by
  refine ⟨?_, ?_, rfl⟩
  · intro hgt
    have hexp : isExpired now (some ex) = true := by
      simp [isExpired, hgt]
    constructor
    · simp [memGet, hl, hexp]
    · constructor
      · simp [memGet, hl, hexp, memLookup_remove_self]
      · intro k' hk'
        simp [memGet, hl, hexp, memLookup_remove_other hk']
  · intro hle
    have hexp : isExpired now (some ex) = false := by
      simp [isExpired]
      omega
    simp [memGet, hl, hexp]

/-- Witness for `storage_lazy_expiration` at `now = 10 > 5`: the expired read
of `"a"` deletes it and leaves `"b"` alone. -/
theorem storage_lazy_expiration_witness :
    ((10 : Nat) > 5 →
        memGet 10 "a" memTwo = (none, memRemove "a" memTwo)
        ∧ memLookup "a" (memGet 10 "a" memTwo).2 = none
        ∧ ∀ k', k' ≠ "a" → memLookup k' (memGet 10 "a" memTwo).2 = memLookup k' memTwo)
    ∧ ((10 : Nat) ≤ 5 → memGet 10 "a" memTwo = (some (.str "x"), memTwo))
    ∧ memGetMut 10 "a" memTwo = memGet 10 "a" memTwo :=
  storage_lazy_expiration 10 5 "a" memTwo (.str "x") rfl

/-- C8 counterexample: a storage holding one entry whose expiration (5) lies
in the past (now = 10). `Memory::get_keys` still lists the key because the
source iterates `self.data.keys()` without checking expiration, so "keys
returns exactly the non-expired keys" is false. -/
theorem keys_lists_expired_cex :
    memGetKeys [("a", .str "x", some 5)] = ["a"]
    ∧ specNonExpiredKeys 10 [("a", .str "x", some 5)] = []
    ∧ isExpired 10 (some 5) = true := ⟨rfl, rfl, rfl⟩

/-- C8 (amended): `keys` returns ALL keys currently present in the map,
including entries already expired but not yet lazily evicted; the KEYS
command errors for every pattern other than `"*"`, and `KEYS *` returns all
current keys. -/
theorem keys_command_behavior (pattern : String) (d : MemoryData)
    (hp : pattern ≠ "*") :
    memGetKeys d = d.map (·.1)
    ∧ keysCommand pattern d = .error .smth
    ∧ keysCommand "*" d = .ok (d.map (·.1)) := by
  refine ⟨rfl, ?_, ?_⟩
  · simp [keysCommand, hp]
  · simp [keysCommand, memGetKeys]

/-- Witness instantiating `keys_command_behavior` at pattern `"foo"` on the
concrete two-entry storage. -/
theorem keys_command_behavior_witness :
    memGetKeys memTwo = memTwo.map (·.1)
    ∧ keysCommand "foo" memTwo = .error .smth
    ∧ keysCommand "*" memTwo = .ok (memTwo.map (·.1)) :=
  keys_command_behavior "foo" memTwo (by decide)

theorem memLookup_append_self (k : String) (v : RedisValue × Option Nat)
    (d : MemoryData) (h : memLookup k d = none) :
    memLookup k (d ++ [(k, v)]) = some v := by
  induction d with
  | nil => simp [memLookup]
  | cons hd tl ih =>
    rcases hd with ⟨k'', v''⟩
    by_cases hk : k'' = k
    · simp [memLookup, hk] at h
    · simp only [memLookup, if_neg hk] at h
      simpa [memLookup, hk] using ih h

theorem memLookup_replaceFull_self (k : String) (v : RedisValue × Option Nat)
    (d : MemoryData) (w : RedisValue × Option Nat)
    (h : memLookup k d = some w) :
    memLookup k (memReplace k v d) = some v := by
  induction d with
  | nil => simp [memLookup] at h
  | cons hd tl ih =>
    rcases hd with ⟨k'', v''⟩
    by_cases hk : k'' = k
    · simp [memReplace, hk, memLookup]
    · simp only [memLookup, if_neg hk] at h
      simpa [memReplace, hk, memLookup] using ih h

/-- C10: storage effects of failing XADD. (1) On a live string value the
error is `InvalidType("stream")` and storage is untouched. (2) On a live
stream whose append is rejected (`0-0` or id ≤ `last_id`), storage is
untouched. (3)/(4) When the key was absent (or expired), the fresh empty
stream inserted by `get_or_insert` persists even though XADD errors (here
forced by requesting `0-0`), so a subsequent read reports type `stream`. -/
theorem xadd_failure_storage_effects (now wall : Nat) (sk : String)
    (key : StreamId) (fv : List String) (d : MemoryData) :
    (∀ x exp, memLookup sk d = some (.str x, exp) → isExpired now exp = false →
        engineAppend now wall sk key fv d = (.error (.invalidType "stream"), d))
    ∧ (∀ st exp, memLookup sk d = some (.stream st, exp) →
        isExpired now exp = false →
        (key = ⟨0, 0⟩ ∨ idLe key st.last_id = true) →
        ∃ msg, engineAppend now wall sk key fv d = (.error (.unhandled msg), d))
    ∧ (memLookup sk d = none → key = ⟨0, 0⟩ →
        ∃ msg, (engineAppend now wall sk key fv d).1 = .error (.unhandled msg)
          ∧ memLookup sk (engineAppend now wall sk key fv d).2
              = some (.stream streamNew, none)
          ∧ (memGet now sk (engineAppend now wall sk key fv d).2).1.map valueTy
              = some .stream)
    ∧ (∀ v0 e0, memLookup sk d = some (v0, some e0) → now > e0 → key = ⟨0, 0⟩ →
        ∃ msg, (engineAppend now wall sk key fv d).1 = .error (.unhandled msg)
          ∧ memLookup sk (engineAppend now wall sk key fv d).2
              = some (.stream streamNew, none)
          ∧ (memGet now sk (engineAppend now wall sk key fv d).2).1.map valueTy
              = some .stream) := by
  refine ⟨?_, ?_, ?_, ?_⟩
  · intro x exp hl hlive
    simp [engineAppend, memGetOrInsert, hl, hlive]
  · intro st exp hl hlive hrej
    rcases hrej with h00 | hle
    · subst h00
      exact ⟨"ERR The ID specified in XADD must be greater than 0-0",
        by simp [engineAppend, memGetOrInsert, hl, hlive, streamAppend]⟩
    · by_cases h00 : key = ⟨0, 0⟩
      · subst h00
        exact ⟨"ERR The ID specified in XADD must be greater than 0-0",
          by simp [engineAppend, memGetOrInsert, hl, hlive, streamAppend]⟩
      · refine ⟨"ERR The ID specified in XADD is equal or smaller than the target stream top item", ?_⟩
        simp only [engineAppend, memGetOrInsert, hl, hlive, Bool.false_eq_true,
          if_false, streamAppend]
        rw [if_neg (by simpa using h00), if_pos hle]
  · intro hl h00
    subst h00
    have hlk : memLookup sk (d ++ [(sk, (.stream streamNew, none))])
        = some (.stream streamNew, none) := memLookup_append_self _ _ _ hl
    refine ⟨"ERR The ID specified in XADD must be greater than 0-0", ?_, ?_, ?_⟩
    · simp [engineAppend, memGetOrInsert, hl, streamAppend]
    · simpa [engineAppend, memGetOrInsert, hl, streamAppend] using hlk
    · simp only [engineAppend, memGetOrInsert, hl, streamAppend]
      simp [memGet, hlk, isExpired, valueTy]
  · intro v0 e0 hl hgt h00
    subst h00
    have hexp : isExpired now (some e0) = true := by simp [isExpired, hgt]
    have hlk : memLookup sk (memReplace sk (.stream streamNew, none) d)
        = some (.stream streamNew, none) :=
      memLookup_replaceFull_self _ _ _ _ hl
    refine ⟨"ERR The ID specified in XADD must be greater than 0-0", ?_, ?_, ?_⟩
    · simp [engineAppend, memGetOrInsert, hl, hexp, streamAppend]
    · simpa [engineAppend, memGetOrInsert, hl, hexp, streamAppend] using hlk
    · simp only [engineAppend, memGetOrInsert, hl, hexp, streamAppend]
      simp [memGet, hlk, isExpired, valueTy]

/-- Witness for `xadd_failure_storage_effects`: XADD of id `0-0` under the
absent key `"u"` errors, yet leaves a fresh empty stream stored under `"u"`. -/
theorem xadd_failure_storage_effects_witness :
    ∃ msg, (engineAppend 0 0 "u" ⟨0, 0⟩ ["f", "v"] memTwo).1
        = .error (.unhandled msg)
      ∧ memLookup "u" (engineAppend 0 0 "u" ⟨0, 0⟩ ["f", "v"] memTwo).2
          = some (.stream streamNew, none)
      ∧ (memGet 0 "u" (engineAppend 0 0 "u" ⟨0, 0⟩ ["f", "v"] memTwo).2).1.map valueTy
          = some .stream :=
  (xadd_failure_storage_effects 0 0 "u" ⟨0, 0⟩ ["f", "v"] memTwo).2.2.1 rfl rfl

/-- C3 counterexample: one replica recorded at offset 11, target snapshot 10,
required count 1. The spec's `≥` count answers immediately with 1, but
`collect_offsets` counts with `o == target_offset`, finds 0, and enters the
ack-round loop instead of replying immediately. -/
theorem wait_immediate_count_cex :
    collectOffsetsImmediate [11] 1 10 = none
    ∧ specImmediateReply [11] 1 10 = some 1
    ∧ ackRoundCount [11] 10 = 1 := ⟨rfl, rfl, rfl⟩

/-- C3 (amended): on a WAIT request `collect_offsets` clamps the required
count to the number of attached replicas and counts the replicas whose
recorded offset is EXACTLY EQUAL to the snapshot target (only `ack_round`
later uses `≥`); it replies immediately exactly when that equality count
meets the clamp, and with zero replicas attached it replies 0 immediately
for every requested count without running an ack round. -/
theorem wait_immediate_reply (offsets : List Nat) (required target : Nat) :
    (offsets = [] → collectOffsetsImmediate offsets required target = some 0)
    ∧ (∀ c, collectOffsetsImmediate offsets required target = some c →
        c = (offsets.filter (fun o => o == target)).length
        ∧ min required offsets.length ≤ c)
    ∧ (min required offsets.length
          ≤ (offsets.filter (fun o => o == target)).length →
        collectOffsetsImmediate offsets required target
          = some ((offsets.filter (fun o => o == target)).length)) := by
  refine ⟨?_, ?_, ?_⟩
  · rintro rfl
    simp [collectOffsetsImmediate]
  · intro c h
    simp only [collectOffsetsImmediate] at h
    split at h
    · rename_i hc
      cases h
      exact ⟨rfl, hc⟩
    · cases h
  · intro h
    simp [collectOffsetsImmediate, h]

/-- Witness instantiating `wait_immediate_reply` with zero replicas and
`WAIT 3`: the reply is 0, immediately. -/
theorem wait_immediate_reply_witness :
    collectOffsetsImmediate [] 3 42 = some 0 :=
  (wait_immediate_reply [] 3 42).1 rfl

theorem listPosition_spec (p : α → Bool) (l : List α) (n : Nat) :
    listPosition p l = some n ↔
      (∃ a, l[n]? = some a ∧ p a = true)
      ∧ ∀ j, j < n → ∀ b, l[j]? = some b → p b = false := by
  induction l generalizing n with
  | nil => simp [listPosition]
  | cons a rest ih =>
    by_cases hp : p a
    · simp only [listPosition, hp, if_pos]
      constructor
      · rintro h
        cases h
        exact ⟨⟨a, by simp, hp⟩, by omega⟩
      · rintro ⟨⟨b, hb, hpb⟩, hbefore⟩
        rcases n with _ | n
        · rfl
        · have := hbefore 0 (by omega) a (by simp)
          rw [hp] at this
          cases this
    · simp only [listPosition, hp, if_neg, Bool.false_eq_true, not_false_eq_true]
      rcases n with _ | n
      · constructor
        · intro h
          rcases hq : listPosition p rest with _ | m <;> simp [hq] at h
        · rintro ⟨⟨b, hb, hpb⟩, _⟩
          simp only [List.getElem?_cons_zero, Option.some.injEq] at hb
          subst hb
          exact absurd hpb (by simp [hp])
      · constructor
        · intro h
          rcases hq : listPosition p rest with _ | m
          · simp [hq] at h
          · rw [hq] at h
            simp at h
            have hm : m = n := by omega
            subst hm
            obtain ⟨hex, hbefore⟩ := (ih m).mp hq
            refine ⟨by simpa using hex, ?_⟩
            intro j hj b hb
            rcases j with _ | j
            · simp only [List.getElem?_cons_zero, Option.some.injEq] at hb
              subst hb
              simpa using hp
            · exact hbefore j (by omega) b (by simpa using hb)
        · rintro ⟨hex, hbefore⟩
          have hr : listPosition p rest = some n :=
            (ih n).mpr ⟨by simpa using hex,
              fun j hj b hb => hbefore (j + 1) (by omega) b (by simpa using hb)⟩
          simp [hr]

/-- C9 counterexample: `SET key val PX 100` with the uppercase flag spelling
`"PX"` against the registered name `"px"`. Case-insensitive lookup (the
claim) extracts `"100"`; the source's exact comparison finds nothing, so the
flag extractor fails (and the `Option<Px>` binding silently drops the
expiration). -/
theorem flag_case_insensitive_cex :
    flagExtract "px" ["key", "val", "PX", "100"] = none
    ∧ specFlagExtract "px" ["key", "val", "PX", "100"] = some "100" := by
  constructor <;> decide

/-- C9 (amended): the `Flag` extractor locates the flag by EXACT
case-sensitive comparison against the argument list and returns the
immediately following argument: it yields `some v` exactly when some
position holds the flag verbatim, no earlier position does, and the next
position holds `v`. -/
theorem flag_extraction_exact (flag v : String) (args : List String) :
    flagExtract flag args = some v ↔
      ∃ pos, args[pos]? = some flag
        ∧ (∀ j, j < pos → args[j]? ≠ some flag)
        ∧ args[pos + 1]? = some v := by
  constructor
  · intro h
    rcases hq : listPosition (fun it => it == flag) args with _ | pos
    · simp [flagExtract, hq] at h
    · simp only [flagExtract, hq] at h
      obtain ⟨⟨b, hb, hpb⟩, hbefore⟩ := (listPosition_spec _ args pos).mp hq
      rw [beq_iff_eq] at hpb
      subst hpb
      refine ⟨pos, hb, ?_, h⟩
      intro j hj hjb
      have := hbefore j hj _ hjb
      simp at this
  · rintro ⟨pos, hat, hbefore, hnext⟩
    have hq : listPosition (fun it => it == flag) args = some pos :=
      (listPosition_spec _ args pos).mpr
        ⟨⟨flag, hat, by simp⟩, fun j hj b hb => by
          rcases hbf : b == flag with _ | _
          · rfl
          · rw [beq_iff_eq] at hbf
            subst hbf
            exact absurd hb (hbefore j hj)⟩
    simp [flagExtract, hq, hnext]

/-- Witness instantiating `flag_extraction_exact`: `px` spelled exactly is
found and the following argument `"100"` is returned. -/
theorem flag_extraction_exact_witness :
    flagExtract "px" ["key", "val", "px", "100"] = some "100" :=
  (flag_extraction_exact "px" "100" ["key", "val", "px", "100"]).mpr
    ⟨2, by decide, by decide, by decide⟩

/-- C5 counterexample: a single broken peer. The spec-modelled broadcast
returns the folded error, but the source's `broadcast` drops the recorded
error and returns `Ok(sent_bytes)`; the peer stays in the table. -/
theorem broadcast_error_discarded_cex :
    netBroadcast [("replica1", false)] "x".data
      = ([("replica1", false)], .ok 1)
    ∧ specBroadcastResult [("replica1", false)] "x".data
      = .error (.unhandled "Error during IO") := ⟨rfl, rfl⟩

/-- C5 (amended): for every write event, every peer — including ones whose
send fails — stays in the connection table, the first per-peer error is
recorded into a local variable but discarded rather than returned, the
broadcast result is always `Ok(encoded byte length)`, and the master's
offset advances by exactly that length regardless of per-peer failures. -/
theorem broadcast_best_effort (conns : ConnTable) (offset : Nat)
    (k v data : List Char) :
    (netBroadcast conns data).1 = conns
    ∧ (netBroadcast conns data).2 = .ok data.length
    ∧ masterWriteStep conns offset k v
        = some (conns, offset + (setFrameBytes k v).length) := ⟨rfl, rfl, rfl⟩

/-- C6 counterexample: BLOCK 100, empty first scan, woken by an update, and a
re-scan that is still empty. The claim demands the null array; the source
returns `Resp2(Some([]))`, the EMPTY array `*0\r\n`, which is a different
frame from the null array `$-1\r\n` — the null array is produced only on
timeout. -/
theorem xread_empty_rescan_cex :
    xreadBlockReply (some 100) [] .woken [] = .results []
    ∧ xreadBlockReply (some 100) [] .timedOut [] = .nullArray
    ∧ xreadReplyHead (.results []) = ['*', '0', '\r', '\n']
    ∧ xreadReplyHead .nullArray = ['$', '-', '1', '\r', '\n']
    ∧ XReadReply.results [] ≠ .nullArray := ⟨rfl, rfl, rfl, rfl, by simp⟩

/-- C6 (amended): when the first scan is empty and BLOCK was given, the
handler waits bounded by the BLOCK timeout (0 meaning `u64::MAX` ms,
effectively forever) and re-scans once; the null array is returned ONLY on
timeout, while a wake-up followed by a still-empty re-scan yields the empty
array; a non-empty first scan or absent BLOCK returns the aggregated first
scan. -/
theorem xread_block_semantics (t : Nat) (firstScan reScan : ScanResult)
    (wake : WaitOutcome) (ht : t ≠ 0) :
    xreadEffectiveTimeout 0 = u64Max
    ∧ xreadEffectiveTimeout t = t
    ∧ xreadBlockReply (some t) [] .timedOut reScan = .nullArray
    ∧ xreadBlockReply (some t) [] .woken reScan = .results reScan
    ∧ (firstScan ≠ [] →
        xreadBlockReply (some t) firstScan wake reScan = .results firstScan)
    ∧ xreadBlockReply none firstScan wake reScan = .results firstScan := by
  refine ⟨rfl, ?_, rfl, rfl, ?_, rfl⟩
  · simp [xreadEffectiveTimeout, ht]
  · intro hne
    simp [xreadBlockReply, hne]

/-- Witness instantiating `xread_block_semantics` at BLOCK 50 with one
entry found on the re-scan. -/
theorem xread_block_semantics_witness :
    xreadEffectiveTimeout 0 = u64Max
    ∧ xreadEffectiveTimeout 50 = 50
    ∧ xreadBlockReply (some 50) [] .timedOut [("s", [(⟨1, 1⟩, ["f", "v"])])]
        = .nullArray
    ∧ xreadBlockReply (some 50) [] .woken [("s", [(⟨1, 1⟩, ["f", "v"])])]
        = .results [("s", [(⟨1, 1⟩, ["f", "v"])])]
    ∧ ([("q", [])] ≠ ([] : ScanResult) →
        xreadBlockReply (some 50) [("q", [])] .woken [("s", [(⟨1, 1⟩, ["f", "v"])])]
          = .results [("q", [])])
    ∧ xreadBlockReply none [("q", [])] .woken [("s", [(⟨1, 1⟩, ["f", "v"])])]
        = .results [("q", [])] :=
  xread_block_semantics 50 [("q", [])] [("s", [(⟨1, 1⟩, ["f", "v"])])] .woken
    (by omega)

/-- C4: for every frame the replica apply loop receives from its master, the
response written back is never an error frame — even when applying the
command fails — and the local applied offset advances by exactly the
consumed frame size. -/
theorem replica_no_error_frames_offset_advances (applyFails : Bool)
    (offset frameSize : Nat) (frame : MasterFrame) :
    isErrorFrame (replicaApplyStep applyFails offset frame frameSize).1 = false
    ∧ (replicaApplyStep applyFails offset frame frameSize).2
        = offset + frameSize := by
  cases frame with
  | setCmd k v => exact ⟨rfl, rfl⟩
  | getack =>
    refine ⟨?_, rfl⟩
    simp [replicaApplyStep, isErrorFrame, serFrame]
  | ping => exact ⟨rfl, rfl⟩

/-! ## RESP2 round-trip (C2) -/

theorem digitChar_isDigit {m : Nat} (h : m < 10) :
    (Nat.digitChar m).isDigit = true := by
  interval_cases m <;> decide

theorem digitChar_toNat {m : Nat} (h : m < 10) :
    (Nat.digitChar m).toNat = m + 48 := by
  interval_cases m <;> decide

theorem digitsVal_append_singleton (ds : List Char) (c : Char) :
    digitsVal (ds ++ [c]) = digitsVal ds * 10 + (c.toNat - 48) := by
  simp [digitsVal, List.foldl_append]

theorem digitCharsGo_spec (fuel : Nat) :
    ∀ n, n < fuel →
      (digitCharsGo fuel n).all Char.isDigit = true
      ∧ digitCharsGo fuel n ≠ []
      ∧ digitsVal (digitCharsGo fuel n) = n := by
  induction fuel with
  | zero => intro n h; omega
  | succ f ih =>
    intro n h
    by_cases h10 : n < 10
    · refine ⟨?_, ?_, ?_⟩
      · simp [digitCharsGo, h10, digitChar_isDigit h10]
      · simp [digitCharsGo, h10]
      · simp [digitCharsGo, h10, digitsVal, digitChar_toNat h10]
    · have hdiv : n / 10 < f := by
        have := Nat.div_lt_self (show 0 < n by omega) (show 1 < 10 by omega)
        omega
      obtain ⟨hall, hne, hval⟩ := ih (n / 10) hdiv
      have hm : n % 10 < 10 := Nat.mod_lt _ (by omega)
      refine ⟨?_, ?_, ?_⟩
      · simp only [digitCharsGo, h10, if_false, List.all_append]
        simp [hall, digitChar_isDigit hm]
      · simp [digitCharsGo, h10]
      · simp only [digitCharsGo, h10, if_false]
        rw [digitsVal_append_singleton, hval, digitChar_toNat hm]
        omega

theorem digitChars_spec (n : Nat) :
    (digitChars n).all Char.isDigit = true
    ∧ digitChars n ≠ []
    ∧ digitsVal (digitChars n) = n :=
  digitCharsGo_spec (n + 1) n (by omega)

theorem takeWhile_append_of_all {p : Char → Bool} (ds : List Char)
    (hall : ds.all p = true) (c : Char) (hc : p c = false) (rest : List Char) :
    (ds ++ c :: rest).takeWhile p = ds
    ∧ (ds ++ c :: rest).dropWhile p = c :: rest := by
  induction ds with
  | nil => simp [List.takeWhile, List.dropWhile, hc]
  | cons d ds ih =>
    simp only [List.all_cons, Bool.and_eq_true] at hall
    obtain ⟨hd, hall⟩ := hall
    obtain ⟨ht, hdr⟩ := ih hall
    simp [List.takeWhile, List.dropWhile, hd, ht, hdr]

theorem parseNumber_digits (n : Nat) (hn : n ≤ i64MaxNat) (rest : List Char) :
    parseNumber (digitChars n ++ '\r' :: rest) = some (n, '\r' :: rest) := by
  obtain ⟨hall, hne, hval⟩ := digitChars_spec n
  obtain ⟨ht, hd⟩ := takeWhile_append_of_all (digitChars n) hall '\r' (by decide) rest
  simp [parseNumber, ht, hd, hne, hval, hn]

theorem takeUntilCRLF_no_cr (s : List Char) (h : ¬ s.contains '\r')
    (rest : List Char) :
    takeUntilCRLF (s ++ '\r' :: '\n' :: rest) = some (s, '\r' :: '\n' :: rest) := by
  induction s with
  | nil => simp [takeUntilCRLF]
  | cons c cs ih =>
    simp only [List.contains_cons, Bool.or_eq_true, not_or] at h
    obtain ⟨hc, hcs⟩ := h
    have hcne : ¬ (c = '\r' ∧ (cs ++ '\r' :: '\n' :: rest).head? = some '\n') := by
      rintro ⟨rfl, -⟩
      exact hc (by simp)
    simp only [List.cons_append, takeUntilCRLF, List.append_eq]
    rw [if_neg hcne, ih (by simpa using hcs)]
    rfl

theorem parseBytes_ser_bulk (b : List Char) (hb : b ≠ [])
    (hlen : b.length ≤ i64MaxNat) (rest : List Char) :
    parseBytes (serFrame (.bulk b) ++ rest) = some (b, '\r' :: '\n' :: rest) := by
  have hser : serFrame (.bulk b) ++ rest
      = '$' :: (digitChars b.length
          ++ '\r' :: '\n' :: (b ++ '\r' :: '\n' :: rest)) := by
    simp [serFrame, List.isEmpty_iff, hb, crlf]
  rw [hser]
  simp only [parseBytes, parseNumber_digits b.length hlen, parseSep]
  have htake : (b ++ '\r' :: '\n' :: rest).take b.length = b :=
    List.take_left b ('\r' :: '\n' :: rest)
  have hdrop : (b ++ '\r' :: '\n' :: rest).drop b.length = '\r' :: '\n' :: rest :=
    List.drop_left b ('\r' :: '\n' :: rest)
  rw [if_neg (by simp), htake, hdrop]

theorem getBytesDe_ser_bulk (b : List Char) (hb : b ≠ [])
    (hlen : b.length ≤ i64MaxNat) (rest : List Char) :
    getBytesDe (serFrame (.bulk b) ++ rest) = some (b, rest) := by
  simp [getBytesDe, parseBytes_ser_bulk b hb hlen rest, parseSep]

theorem getAnyStringDe_ser_bulk (b : List Char) (hb : b ≠ [])
    (hlen : b.length ≤ i64MaxNat) (rest : List Char) :
    getAnyStringDe (serFrame (.bulk b) ++ rest) = some (.bulk b, rest) := by
  have hser : serFrame (.bulk b) ++ rest
      = '$' :: (digitChars b.length
          ++ '\r' :: '\n' :: (b ++ '\r' :: '\n' :: rest)) := by
    simp [serFrame, List.isEmpty_iff, hb, crlf]
  have hsimple : parseSimpleStr (serFrame (.bulk b) ++ rest) = none := by
    rw [hser]; rfl
  have hbytes := parseBytes_ser_bulk b hb hlen rest
  simp [getAnyStringDe, hsimple, hbytes, parseSep]

theorem getAnyStringDe_ser_simple (s : List Char) (h : ¬ s.contains '\r')
    (rest : List Char) :
    getAnyStringDe (serFrame (.simple s) ++ rest) = some (.simple s, rest) := by
  have hser : serFrame (.simple s) ++ rest
      = '+' :: (s ++ '\r' :: '\n' :: rest) := by
    simp [serFrame, crlf]
  rw [hser]
  simp [getAnyStringDe, parseSimpleStr, takeUntilCRLF_no_cr s h rest, parseSep]

theorem deListGo_bulks (l : List Frame) (h : l.all goodBulk = true)
    (rest : List Char) :
    deShapeListGo getAnyStringDe l.length (serFrames l ++ rest)
      = some (l, rest) := by
  induction l generalizing rest with
  | nil => simp [serFrames, deShapeListGo]
  | cons f fs ih =>
    simp only [List.all_cons, Bool.and_eq_true] at h
    obtain ⟨hf, hfs⟩ := h
    cases f with
    | bulk b =>
      simp only [goodBulk, Bool.and_eq_true, Bool.not_eq_true',
        decide_eq_true_eq] at hf
      obtain ⟨hb, hlen⟩ := hf
      have hbne : b ≠ [] := fun he => by simp [he] at hb
      have hel : getAnyStringDe (serFrame (.bulk b) ++ (serFrames fs ++ rest))
          = some (.bulk b, serFrames fs ++ rest) :=
        getAnyStringDe_ser_bulk b hbne hlen (serFrames fs ++ rest)
      simp only [List.length_cons, deShapeListGo, serFrames, List.append_assoc,
        hel, Option.some_bind]
      rw [ih hfs rest]
      rfl
    | simple s => simp [goodBulk] at hf
    | int n => simp [goodBulk] at hf
    | nullbulk => simp [goodBulk] at hf
    | arr l2 => simp [goodBulk] at hf

theorem deShape_arr_bulks (l : List Frame) (h : l.all goodBulk = true)
    (hlen : l.length ≤ i64MaxNat) (rest : List Char) :
    deShape (.sseq .sstr) (serFrame (.arr l) ++ rest) = some (.arr l, rest) := by
  have hser : serFrame (.arr l) ++ rest
      = '*' :: (digitChars l.length ++ '\r' :: '\n' :: (serFrames l ++ rest)) := by
    simp [serFrame, crlf]
  rw [deShape, hser]
  simp only [shapeFuel, deShapeF, parseNumber_digits l.length hlen, parseSep,
    Option.some_bind]
  rw [deListGo_bulks l h rest]
  rfl

theorem deShapeF_seq (fuel : Nat) (el : Shape) (n : Nat) (hn : n ≤ i64MaxNat)
    (tail : List Char) :
    deShapeF (fuel + 1) (.sseq el) ('*' :: (digitChars n ++ '\r' :: '\n' :: tail))
      = (deShapeListGo (deShapeF fuel el) n tail).map fun p =>
          (Frame.arr p.1, p.2) := by
  conv_lhs => rw [deShapeF]
  simp only [parseNumber_digits n hn ('\n' :: tail), parseSep, Option.some_bind]

theorem deListGo_arr1 (L : List Frame) (h : L.all goodArr1 = true)
    (rest : List Char) :
    deShapeListGo (deShapeF 2 (.sseq .sstr)) L.length (serFrames L ++ rest)
      = some (L, rest) := by
  induction L generalizing rest with
  | nil => simp [serFrames, deShapeListGo]
  | cons f fs ih =>
    simp only [List.all_cons, Bool.and_eq_true] at h
    obtain ⟨hf, hfs⟩ := h
    cases f with
    | arr l =>
      simp only [goodArr1, Bool.and_eq_true, decide_eq_true_eq] at hf
      obtain ⟨hl, hlen⟩ := hf
      have hel : deShapeF 2 (.sseq .sstr) (serFrame (.arr l) ++ (serFrames fs ++ rest))
          = some (.arr l, serFrames fs ++ rest) :=
        deShape_arr_bulks l hl hlen (serFrames fs ++ rest)
      simp only [List.length_cons, deShapeListGo, serFrames, List.append_assoc,
        hel, Option.some_bind]
      rw [ih hfs rest]
      rfl
    | simple s => simp [goodArr1] at hf
    | int n => simp [goodArr1] at hf
    | nullbulk => simp [goodArr1] at hf
    | bulk b => simp [goodArr1] at hf

theorem deShape_arr_arr1 (L : List Frame) (h : L.all goodArr1 = true)
    (hlen : L.length ≤ i64MaxNat) (rest : List Char) :
    deShape (.sseq (.sseq .sstr)) (serFrame (.arr L) ++ rest)
      = some (.arr L, rest) := by
  have hser : serFrame (.arr L) ++ rest
      = '*' :: (digitChars L.length ++ '\r' :: '\n' :: (serFrames L ++ rest)) := by
    simp [serFrame, crlf]
  rw [deShape, hser]
  show deShapeF (2 + 1) (.sseq (.sseq .sstr)) _ = _
  rw [deShapeF_seq 2 (.sseq .sstr) L.length hlen (serFrames L ++ rest)]
  rw [deListGo_arr1 L h rest]
  rfl

theorem fromBytesAt_of_deShape (sh : Shape) (f : Frame) (input : List Char)
    (h : deShape sh input = some (f, [])) :
    fromBytesAt sh input = some (f, input.length) := by
  rw [deShape] at h
  simp [fromBytesAt, deShape, h]

/-- C2 (amended): the decode∘encode round-trip, with the full consumed-byte
count, holds exactly on the decodable fragment `goodFrame`: CR-free simple
strings, NON-EMPTY bulk strings, and arrays of such bulks up to depth 2.
The integer, null-bulk and empty-bulk encodings are rejected by the decoder
(no `':'` parse path exists, `"-1"` fails the digit-only length parser, and
`$0\r\n` lacks the trailing CRLF `get_bytes` demands). -/
theorem resp2_roundtrip (f : Frame) (hf : goodFrame f = true) :
    fromBytesAt (topShape f) (serFrame f) = some (f, (serFrame f).length) := by
  cases f with
  | simple s =>
    have h : ¬ s.contains '\r' = true := by
      simpa [goodFrame] using hf
    refine fromBytesAt_of_deShape _ _ _ ?_
    have := getAnyStringDe_ser_simple s h []
    rw [List.append_nil] at this
    simpa [deShape, shapeFuel, deShapeF, topShape] using this
  | bulk b =>
    simp only [goodFrame, Bool.and_eq_true, Bool.not_eq_true',
      decide_eq_true_eq] at hf
    obtain ⟨hb, hlen⟩ := hf
    have hbne : b ≠ [] := fun he => by simp [he] at hb
    refine fromBytesAt_of_deShape _ _ _ ?_
    have := getBytesDe_ser_bulk b hbne hlen []
    rw [List.append_nil] at this
    simp [deShape, shapeFuel, deShapeF, topShape, this]
  | int n => simp [goodFrame] at hf
  | nullbulk => simp [goodFrame] at hf
  | arr l =>
    simp only [goodFrame, Bool.and_eq_true, Bool.or_eq_true,
      decide_eq_true_eq] at hf
    obtain ⟨hgood, hlen⟩ := hf
    refine fromBytesAt_of_deShape _ _ _ ?_
    rcases hgood with hbulks | harr1
    · have hde := deShape_arr_bulks l hbulks hlen []
      rw [List.append_nil] at hde
      cases l with
      | nil => simpa [topShape] using hde
      | cons x xs =>
        have hx : goodBulk x = true := by
          simp only [List.all_cons, Bool.and_eq_true] at hbulks
          exact hbulks.1
        cases x with
        | bulk b => simpa [topShape, elemShape] using hde
        | simple s => simp [goodBulk] at hx
        | int n => simp [goodBulk] at hx
        | nullbulk => simp [goodBulk] at hx
        | arr l2 => simp [goodBulk] at hx
    · have hde := deShape_arr_arr1 l harr1 hlen []
      rw [List.append_nil] at hde
      cases l with
      | nil => simpa [topShape] using hde
      | cons x xs =>
        have hx : goodArr1 x = true := by
          simp only [List.all_cons, Bool.and_eq_true] at harr1
          exact harr1.1
        cases x with
        | arr lx =>
          cases lx with
          | nil => simpa [topShape, elemShape] using hde
          | cons y ys =>
            have hy : goodBulk y = true := by
              simp only [goodArr1, List.all_cons, Bool.and_eq_true,
                decide_eq_true_eq] at hx
              exact hx.1.1
            cases y with
            | bulk b => simpa [topShape, elemShape] using hde
            | simple s => simp [goodBulk] at hy
            | int n => simp [goodBulk] at hy
            | nullbulk => simp [goodBulk] at hy
            | arr l3 => simp [goodBulk] at hy
        | simple s => simp [goodArr1] at hx
        | int n => simp [goodArr1] at hx
        | nullbulk => simp [goodArr1] at hx
        | bulk b => simp [goodArr1] at hx

/-- C2 counterexample: the empty bulk string. The serializer writes `$0\r\n`
(no body, no trailing CRLF), and decoding that encoding fails — `get_bytes`
parses the zero-length body and then demands a separator that is not there —
so `decode(encode(f)) = (f, len(encode(f)))` is false for the empty bulk. -/
theorem resp2_empty_bulk_cex :
    serFrame (.bulk []) = ['$', '0', '\r', '\n']
    ∧ fromBytesAt (topShape (.bulk [])) (serFrame (.bulk [])) = none := ⟨rfl, rfl⟩

/-- Witness instantiating `resp2_roundtrip` at the concrete array frame
`["SET", "key"]` (an array of two non-empty bulks). -/
theorem resp2_roundtrip_witness :
    fromBytesAt (topShape (.arr [.bulk "SET".data, .bulk "key".data]))
        (serFrame (.arr [.bulk "SET".data, .bulk "key".data]))
      = some (.arr [.bulk "SET".data, .bulk "key".data],
          (serFrame (.arr [.bulk "SET".data, .bulk "key".data])).length) :=
  resp2_roundtrip (.arr [.bulk "SET".data, .bulk "key".data]) (by rfl)
